import Mathlib

/-
Verification of the declarative typed-attribute framework described by the
repository's specification, together with the concrete usage example in
src/examples/example_units.py (class Square with Number attributes side1 and
side2, the standalone descriptor p1, and the instance sq1).

The framework itself (descriptors, registry, parameterized instances,
introspection namespace) is not part of the repository's sources — only the
example script that exercises it is — so the framework operations below are
modelled from the specification's contracts (sections 3, 4 and 7 of the spec),
while the concrete classes and calls mirror the example script.
-/

namespace ParamSpec

/-- Modelled from the spec: runtime values flowing through descriptors.
The framework is dynamically typed; the claims only need numeric values,
strings (for the wrong-type scenario) and the distinguished None value. -/
inductive Value where
  | num (q : ℚ)
  | str (s : String)
  | vnone
deriving DecidableEq, Repr

/-- Modelled from the spec: the error taxonomy of section 7.
Each error carries the name of the violated constraint or attribute. -/
inductive Err where
  | invalidDeclaration (constraint : String)
  | validation (constraint : String)
  | duplicateDeclaration (name : String)
  | unknownAttribute (name : String)
  | constantViolation (name : String)
deriving DecidableEq, Repr

/-- Modelled from the spec: optional inclusive/exclusive lower/upper numeric
limits; a None endpoint means unbounded on that side. -/
structure Bounds where
  lo : Option ℚ
  hi : Option ℚ
  loExcl : Bool
  hiExcl : Bool
deriving DecidableEq, Repr

/-- Modelled from the spec: the descriptor kinds the example exercises —
the generic Parameter kind and the numeric Number kind. -/
inductive PKind where
  | plain
  | number
deriving DecidableEq, Repr

/-- Modelled from the spec: a Parameter Descriptor — an immutable specification
of one attribute's kind, default value and metadata (section 3). The name is
optional at declaration time and bound at class-creation time. -/
structure Descriptor where
  name : Option String
  kind : PKind
  default : Value
  doc : Option String
  units : Option String
  bounds : Option Bounds
  constant : Bool
  allowNone : Bool
deriving DecidableEq, Repr

/-- Modelled from the spec: lower-endpoint check, strict when exclusive,
vacuous when the endpoint is absent. -/
def lowerOk (lo : Option ℚ) (excl : Bool) (v : ℚ) : Bool :=
  match lo with
  | Option.none => true
  | Option.some l => if excl then decide (l < v) else decide (l ≤ v)

/-- Modelled from the spec: upper-endpoint check, strict when exclusive,
vacuous when the endpoint is absent. -/
def upperOk (hi : Option ℚ) (excl : Bool) (v : ℚ) : Bool :=
  match hi with
  | Option.none => true
  | Option.some u => if excl then decide (v < u) else decide (v ≤ u)

/-- Modelled from the spec: the numeric bounds check of section 4.1 —
lower <= value <= upper, strict on exclusive endpoints, absent bounds
unbounded. -/
def boundsOk (b : Option Bounds) (v : ℚ) : Bool :=
  match b with
  | Option.none => true
  | Option.some bd => lowerOk bd.lo bd.loExcl v && upperOk bd.hi bd.hiExcl v

/-- Modelled from the spec: validate(candidate) of section 4.1 — returns the
accepted value, or fails with a ValidationError naming the violated constraint
(allow_None, type, or bounds). No coercion: the accepted value is the
candidate itself. -/
def validate (d : Descriptor) (v : Value) : Except Err Value :=
  match v with
  | Value.vnone =>
      if d.allowNone then Except.ok Value.vnone
      else Except.error (Err.validation "allow_None")
  | Value.num q =>
      match d.kind with
      | PKind.number =>
          if boundsOk d.bounds q then Except.ok (Value.num q)
          else Except.error (Err.validation "bounds")
      | PKind.plain => Except.ok (Value.num q)
  | Value.str s =>
      match d.kind with
      | PKind.number => Except.error (Err.validation "type")
      | PKind.plain => Except.ok (Value.str s)

/-- The Number descriptor constructor as used in the example script:
Number(doc=..., default=..., units=...) — numeric kind, no bounds, not
constant, None not allowed, no name (the name is bound at class creation). -/
def Number (doc : Option String) (default : Value) (units : Option String) :
    Descriptor :=
  ⟨Option.none, PKind.number, default, doc, units, Option.none, false, false⟩

/-- Modelled from the spec: the declare(...) contract of section 4.1 for the
Number kind — constructs the descriptor, failing with InvalidDeclarationError
when the default does not satisfy the kind's own constraints. -/
def NumberDeclare (name doc : Option String) (default : Value)
    (units : Option String) (bounds : Option Bounds)
    (constant allowNone : Bool) : Except Err Descriptor :=
  let d : Descriptor := ⟨name, PKind.number, default, doc, units, bounds,
    constant, allowNone⟩
  match validate d default with
  | Except.ok _ => Except.ok d
  | Except.error _ => Except.error (Err.invalidDeclaration "default")

/-- Modelled from the spec: the Declaration Registry — a mapping from
attribute name to descriptor (section 3). -/
abbrev Registry : Type := List (String × Descriptor)

/-- Modelled from the spec: look an attribute name up in a registry. -/
def findDecl (reg : Registry) (n : String) : Option Descriptor :=
  match reg with
  | [] => Option.none
  | (m, d) :: rest => if m = n then Option.some d else findDecl rest n

/-- Modelled from the spec: bind a descriptor's name at class-creation time —
a descriptor declared without an explicit name receives the class-attribute
identifier it is assigned to. -/
def bindName (ident : String) (d : Descriptor) : Descriptor :=
  { d with name := Option.some (d.name.getD ident) }

/-- Modelled from the spec: collect(class_object) of section 4.2 for a single
class body — builds the name-to-descriptor registry in declaration order,
binding unnamed descriptors to their identifiers, and failing with
DuplicateDeclarationError on a sibling name collision. -/
def collect (decls : List (String × Descriptor)) : Except Err Registry :=
  match decls with
  | [] => Except.ok []
  | (ident, d) :: rest =>
      if (rest.map Prod.fst).contains ident then
        Except.error (Err.duplicateDeclaration ident)
      else
        match collect rest with
        | Except.error e => Except.error e
        | Except.ok reg => Except.ok ((ident, bindName ident d) :: reg)

/-- Modelled from the spec: a Parameterized Instance — the shared class
registry plus the per-instance value storage (section 3). -/
structure PInstance where
  cls : Registry
  store : List (String × Value)
deriving DecidableEq

/-- Modelled from the spec: look a name up in per-instance storage. -/
def lookupStore (store : List (String × Value)) (n : String) : Option Value :=
  match store with
  | [] => Option.none
  | (m, v) :: rest => if m = n then Option.some v else lookupStore rest n

/-- Modelled from the spec: overwrite the stored value of an existing name in
per-instance storage (names absent from the storage are untouched). -/
def setStore (store : List (String × Value)) (n : String) (v : Value) :
    List (String × Value) :=
  match store with
  | [] => []
  | (m, w) :: rest =>
      if m = n then (n, v) :: setStore rest n v
      else (m, w) :: setStore rest n v

/-- Modelled from the spec: seed per-instance storage from descriptor
defaults (section 4.3). -/
def seedDefaults (reg : Registry) : List (String × Value) :=
  reg.map (fun p => (p.1, p.2.default))

/-- Modelled from the spec: apply constructor keyword overrides in order —
each key must have a matching descriptor (else UnknownAttributeError) and its
value must validate; the validated result is stored. -/
def applyOverrides (reg : Registry) :
    List (String × Value) → List (String × Value) →
    Except Err (List (String × Value))
  | store, [] => Except.ok store
  | store, (n, v) :: rest =>
      match findDecl reg n with
      | Option.none => Except.error (Err.unknownAttribute n)
      | Option.some d =>
          match validate d v with
          | Except.error e => Except.error e
          | Except.ok w => applyOverrides reg (setStore store n w) rest

/-- Modelled from the spec: construct(**overrides) of section 4.3 — seed every
declared name from its default, then apply the overrides through validation;
all-or-nothing: any failure yields no instance. -/
def construct (reg : Registry) (overrides : List (String × Value)) :
    Except Err PInstance :=
  match applyOverrides reg (seedDefaults reg) overrides with
  | Except.error e => Except.error e
  | Except.ok st => Except.ok ⟨reg, st⟩

/-- Modelled from the spec: get(name) of section 4.3 — the current stored
value of a declared name (falling back to the declared default when never
stored), UnknownAttributeError for undeclared names. -/
def get (inst : PInstance) (n : String) : Except Err Value :=
  match findDecl inst.cls n with
  | Option.none => Except.error (Err.unknownAttribute n)
  | Option.some d =>
      match lookupStore inst.store n with
      | Option.some v => Except.ok v
      | Option.none => Except.ok d.default

/-- Modelled from the spec: set(name, value) of section 4.3 — re-runs the
descriptor's validate then stores; ConstantViolationError when the descriptor
is constant (every declared name is initialized at construction, so a live
constant attribute is always locked); UnknownAttributeError when undeclared. -/
def set (inst : PInstance) (n : String) (v : Value) : Except Err PInstance :=
  match findDecl inst.cls n with
  | Option.none => Except.error (Err.unknownAttribute n)
  | Option.some d =>
      if d.constant then Except.error (Err.constantViolation n)
      else
        match validate d v with
        | Except.error e => Except.error e
        | Except.ok w => Except.ok ⟨inst.cls, setStore inst.store n w⟩

/-- Modelled from the spec: a chain of set calls applied in sequence, each of
which must succeed. -/
def setAll (inst : PInstance) :
    List (String × Value) → Except Err PInstance
  | [] => Except.ok inst
  | (n, v) :: rest =>
      match set inst n v with
      | Except.error e => Except.error e
      | Except.ok inst2 => setAll inst2 rest

/-- Modelled from the spec: the per-attribute view the Introspection Namespace
exposes — declaration metadata plus, on instances, the current value. -/
structure ParamView where
  doc : Option String
  units : Option String
  bounds : Option Bounds
  default : Value
  value : Option Value
deriving DecidableEq

/-- Modelled from the spec: the Introspection Namespace bound to a class
(section 4.4) — metadata only, no value. -/
def nsGetClass (reg : Registry) (n : String) : Except Err ParamView :=
  match findDecl reg n with
  | Option.none => Except.error (Err.unknownAttribute n)
  | Option.some d =>
      Except.ok ⟨d.doc, d.units, d.bounds, d.default, Option.none⟩

/-- Modelled from the spec: the Introspection Namespace bound to an instance
(section 4.4) — metadata plus the current stored value via get. -/
def nsGet (inst : PInstance) (n : String) : Except Err ParamView :=
  match findDecl inst.cls n with
  | Option.none => Except.error (Err.unknownAttribute n)
  | Option.some d =>
      match get inst n with
      | Except.error e => Except.error e
      | Except.ok v =>
          Except.ok ⟨d.doc, d.units, d.bounds, d.default, Option.some v⟩

/-- Modelled from the spec: attribute-style read on an instance — attribute
access is intercepted and redirected to per-instance storage through the
declaration registry (sections 2 and 4.3). -/
def attrRead (inst : PInstance) (n : String) : Except Err Value :=
  match findDecl inst.cls n with
  | Option.none => Except.error (Err.unknownAttribute n)
  | Option.some d =>
      match lookupStore inst.store n with
      | Option.some v => Except.ok v
      | Option.none => Except.ok d.default

/-- Modelled from the spec: attribute-style write on an instance — intercepted,
routed through the originating descriptor's constancy check and validation,
then stored per-instance (sections 2 and 4.3). -/
def attrWrite (inst : PInstance) (n : String) (v : Value) :
    Except Err PInstance :=
  match findDecl inst.cls n with
  | Option.none => Except.error (Err.unknownAttribute n)
  | Option.some d =>
      if d.constant then Except.error (Err.constantViolation n)
      else
        match validate d v with
        | Except.error e => Except.error e
        | Except.ok w => Except.ok ⟨inst.cls, setStore inst.store n w⟩

/-- The class body of Square from src/examples/example_units.py:
side1 = Number(doc="side1", default=1., units="m") and
side2 = Number(doc="side2", default=1., units="m"). -/
def squareBody : List (String × Descriptor) :=
  [("side1", Number (Option.some "side1") (Value.num 1) (Option.some "m")),
   ("side2", Number (Option.some "side2") (Value.num 1) (Option.some "m"))]

/-- The Declaration Registry of Square: both descriptors with their names
bound at class creation. -/
def Square : Registry :=
  [("side1", ⟨Option.some "side1", PKind.number, Value.num 1,
     Option.some "side1", Option.some "m", Option.none, false, false⟩),
   ("side2", ⟨Option.some "side2", PKind.number, Value.num 1,
     Option.some "side2", Option.some "m", Option.none, false, false⟩)]

/-- The standalone descriptor p1 = Number(doc="side1", default=1.) from the
example script, built through the declaration-time contract. -/
def p1 : Except Err Descriptor :=
  NumberDeclare Option.none (Option.some "side1") (Value.num 1)
    Option.none Option.none false false

/-- The constructor overrides of sq1 = Square(side1=5, side2=4) from the
example script. -/
def sq1Overrides : List (String × Value) :=
  [("side1", Value.num 5), ("side2", Value.num 4)]

/-- The instance sq1 = Square(side1=5, side2=4): per-instance storage holds
the validated overrides. -/
def sq1 : PInstance :=
  ⟨Square, [("side1", Value.num 5), ("side2", Value.num 4)]⟩

/-- Validation never coerces: an accepted value is returned unchanged. -/
theorem validate_ok_eq (d : Descriptor) (v w : Value)
    (h : validate d v = Except.ok w) : w = v := by
  cases v <;> simp only [validate] at h <;> (repeat' split at h) <;>
    (first | (cases h; rfl) | cases h)

/-- Overwriting an existing name makes lookup return the new value. -/
theorem lookup_setStore_self (st : List (String × Value)) (n : String)
    (v : Value) (h : (lookupStore st n).isSome) :
    lookupStore (setStore st n v) n = Option.some v := by
  induction st with
  | nil => simp [lookupStore] at h
  | cons p rest ih =>
      obtain ⟨m, w⟩ := p
      by_cases hm : m = n
      · simp [lookupStore, setStore, hm]
      · simp only [lookupStore, setStore, if_neg hm] at h ⊢
        exact ih h

/-- Overwriting one name leaves every other name's lookup unchanged. -/
theorem lookup_setStore_ne (st : List (String × Value)) (n m : String)
    (v : Value) (h : m ≠ n) :
    lookupStore (setStore st n v) m = lookupStore st m := by
  induction st with
  | nil => simp [lookupStore, setStore]
  | cons p rest ih =>
      obtain ⟨k, w⟩ := p
      simp only [setStore]
      by_cases hk : k = n
      · subst hk
        rw [if_pos rfl]
        simp only [lookupStore]
        rw [if_neg (fun hh : k = m => h hh.symm),
          if_neg (fun hh : k = m => h hh.symm), ih]
      · rw [if_neg hk]
        simp only [lookupStore]
        rw [ih]

/-- Overwriting a value never changes which names are present in storage. -/
theorem lookup_setStore_isSome (st : List (String × Value)) (n m : String)
    (v : Value) :
    (lookupStore (setStore st n v) m).isSome = (lookupStore st m).isSome := by
  by_cases hm : m = n
  · subst hm
    cases hs : (lookupStore st m).isSome
    · induction st with
      | nil => simp [lookupStore, setStore]
      | cons p rest ih =>
          obtain ⟨k, w⟩ := p
          by_cases hk : k = m
          · simp [lookupStore, hk] at hs
          · simp only [lookupStore, setStore, if_neg hk] at hs ⊢
            exact ih hs
    · rw [lookup_setStore_self st m v hs]
      simp [hs]
  · rw [lookup_setStore_ne st n m v hm]

/-- Seeded storage holds exactly each declared name's default. -/
theorem lookup_seedDefaults (reg : Registry) (n : String) :
    lookupStore (seedDefaults reg) n =
      (findDecl reg n).map Descriptor.default := by
  induction reg with
  | nil => simp [seedDefaults, lookupStore, findDecl]
  | cons p rest ih =>
      obtain ⟨m, d⟩ := p
      by_cases hm : m = n
      · simp [seedDefaults, lookupStore, findDecl, hm]
      · simpa [seedDefaults, lookupStore, findDecl, hm] using ih

/-- When override application succeeds, every override key has a matching
descriptor and its value passes that descriptor's validation. -/
theorem applyOverrides_ok_all (reg : Registry) (st : List (String × Value))
    (ovs : List (String × Value)) (st' : List (String × Value))
    (h : applyOverrides reg st ovs = Except.ok st') :
    ∀ p ∈ ovs, ∃ d, findDecl reg p.1 = Option.some d ∧
      validate d p.2 = Except.ok p.2 := by
  induction ovs generalizing st with
  | nil => intro p hp; simp at hp
  | cons q rest ih =>
      obtain ⟨n, v⟩ := q
      simp only [applyOverrides] at h
      intro p hp
      split at h
      · cases h
      · rename_i d hd
        split at h
        · cases h
        · rename_i w hv
          rcases List.mem_cons.mp hp with hpq | hpr
          · subst hpq
            exact ⟨d, hd, by rw [validate_ok_eq d v w hv] at hv; exact hv⟩
          · exact ih (setStore st n w) h p hpr

/-- Applying overrides that never mention a name leaves that name's stored
value untouched. -/
theorem applyOverrides_notmem (reg : Registry) (st : List (String × Value))
    (ovs : List (String × Value)) (st' : List (String × Value)) (n : String)
    (hn : n ∉ ovs.map Prod.fst)
    (h : applyOverrides reg st ovs = Except.ok st') :
    lookupStore st' n = lookupStore st n := by
  induction ovs generalizing st with
  | nil => simp only [applyOverrides] at h; cases h; rfl
  | cons q rest ih =>
      obtain ⟨m, v⟩ := q
      simp only [List.map_cons, List.mem_cons, not_or] at hn
      simp only [applyOverrides] at h
      split at h
      · cases h
      · rename_i d hd
        split at h
        · cases h
        · rename_i w hv
          rw [ih (setStore st m w) hn.2 h]
          exact lookup_setStore_ne st m n w hn.1

/-- Applying overrides never changes which names are present in storage. -/
theorem applyOverrides_isSome (reg : Registry) (st : List (String × Value))
    (ovs : List (String × Value)) (st' : List (String × Value)) (m : String)
    (h : applyOverrides reg st ovs = Except.ok st') :
    (lookupStore st' m).isSome = (lookupStore st m).isSome := by
  induction ovs generalizing st with
  | nil => simp only [applyOverrides] at h; cases h; rfl
  | cons q rest ih =>
      obtain ⟨n, v⟩ := q
      simp only [applyOverrides] at h
      split at h
      · cases h
      · rename_i d hd
        split at h
        · cases h
        · rename_i w hv
          rw [ih (setStore st n w) h]
          exact lookup_setStore_isSome st n m w

/-- A successfully applied override is what lookup finds afterwards, provided
the keys are distinct and the name was present in storage. -/
theorem applyOverrides_mem (reg : Registry) (st : List (String × Value))
    (ovs : List (String × Value)) (st' : List (String × Value)) (n : String)
    (v : Value) (hnodup : (ovs.map Prod.fst).Nodup) (hmem : (n, v) ∈ ovs)
    (hsome : (lookupStore st n).isSome)
    (h : applyOverrides reg st ovs = Except.ok st') :
    lookupStore st' n = Option.some v := by
  induction ovs generalizing st with
  | nil => simp at hmem
  | cons q rest ih =>
      obtain ⟨m, w⟩ := q
      simp only [List.map_cons, List.nodup_cons] at hnodup
      simp only [applyOverrides] at h
      split at h
      · cases h
      · rename_i d hd
        split at h
        · cases h
        · rename_i w' hv
          rcases List.mem_cons.mp hmem with hq | hr
          · have hn : n = m := congrArg Prod.fst hq
            have hw : v = w := congrArg Prod.snd hq
            subst hn; subst hw
            have hkeys : n ∉ rest.map Prod.fst := hnodup.1
            rw [applyOverrides_notmem reg (setStore st n w') rest st' n
              hkeys h]
            rw [validate_ok_eq d v w' hv]
            exact lookup_setStore_self st n v hsome
          · have hnm : n ≠ m := by
              intro hnm
              exact hnodup.1 (hnm ▸ List.mem_map_of_mem Prod.fst hr)
            have hsome2 : (lookupStore (setStore st m w') n).isSome := by
              rw [lookup_setStore_isSome st m n w']; exact hsome
            exact ih (setStore st m w') hnodup.2 hr hsome2 h

/-- A successful construction keeps the class registry and records the
storage produced by seeding defaults then applying the overrides. -/
theorem construct_ok_parts (reg : Registry) (ovs : List (String × Value))
    (inst : PInstance) (h : construct reg ovs = Except.ok inst) :
    inst.cls = reg ∧
      applyOverrides reg (seedDefaults reg) ovs = Except.ok inst.store := by
  simp only [construct] at h
  rcases ha : applyOverrides reg (seedDefaults reg) ovs with e | st
  · rw [ha] at h; cases h
  · rw [ha] at h; cases h; exact ⟨rfl, rfl⟩

/-- A name found in a registry is one of its entries. -/
theorem findDecl_mem (reg : Registry) (n : String) (d : Descriptor)
    (h : findDecl reg n = Option.some d) : (n, d) ∈ reg := by
  induction reg with
  | nil => simp [findDecl] at h
  | cons p rest ih =>
      obtain ⟨m, d'⟩ := p
      simp only [findDecl] at h
      by_cases hm : m = n
      · rw [if_pos hm] at h
        cases h
        subst hm
        exact List.mem_cons_self _ _
      · rw [if_neg hm] at h
        exact List.mem_cons_of_mem _ (ih h)

/-- In a registry whose descriptors all accept their own defaults, seeded
storage is validated: every stored value passes its descriptor's check. -/
theorem seedDefaults_wf (reg : Registry)
    (hwf : ∀ p ∈ reg, validate p.2 p.2.default = Except.ok p.2.default) :
    ∀ m w, lookupStore (seedDefaults reg) m = Option.some w →
      ∀ d, findDecl reg m = Option.some d → validate d w = Except.ok w := by
  intro m w hl d hd
  rw [lookup_seedDefaults, hd, Option.map_some'] at hl
  cases hl
  exact hwf (m, d) (findDecl_mem reg m d hd)

/-- Applying overrides preserves validated storage: if every stored value
passes its descriptor's check beforehand, the same holds afterwards. -/
theorem applyOverrides_wf (reg : Registry) (st : List (String × Value))
    (ovs : List (String × Value)) (st' : List (String × Value))
    (hst : ∀ m w, lookupStore st m = Option.some w →
      ∀ d, findDecl reg m = Option.some d → validate d w = Except.ok w)
    (h : applyOverrides reg st ovs = Except.ok st') :
    ∀ m w, lookupStore st' m = Option.some w →
      ∀ d, findDecl reg m = Option.some d → validate d w = Except.ok w := by
  induction ovs generalizing st with
  | nil => simp only [applyOverrides] at h; cases h; exact hst
  | cons q rest ih =>
      obtain ⟨n, v⟩ := q
      simp only [applyOverrides] at h
      split at h
      · cases h
      · rename_i d0 hd0
        split at h
        · cases h
        · rename_i w0 hv0
          have hw0 : w0 = v := validate_ok_eq d0 v w0 hv0
          rw [hw0] at h hv0
          refine ih (setStore st n v) ?_ h
          intro m w hl d hd
          by_cases hm : m = n
          · subst hm
            have hsome : (lookupStore st m).isSome := by
              have := lookup_setStore_isSome st m m v
              rw [hl] at this
              exact this.symm ▸ rfl
            rw [lookup_setStore_self st m v hsome] at hl
            cases hl
            rw [hd0] at hd
            cases hd
            exact hv0
          · rw [lookup_setStore_ne st n m v hm] at hl
            exact hst m w hl d hd

/-- A successful set keeps the class registry unchanged. -/
theorem set_cls (inst : PInstance) (n : String) (v : Value)
    (inst2 : PInstance) (h : set inst n v = Except.ok inst2) :
    inst2.cls = inst.cls := by
  simp only [set] at h
  split at h
  · cases h
  · split at h
    · cases h
    · split at h
      · cases h
      · cases h; rfl

/-- A successful chain of sets keeps the class registry unchanged. -/
theorem setAll_cls (inst : PInstance) (ops : List (String × Value))
    (inst2 : PInstance) (h : setAll inst ops = Except.ok inst2) :
    inst2.cls = inst.cls := by
  induction ops generalizing inst with
  | nil => simp only [setAll] at h; cases h; rfl
  | cons q rest ih =>
      obtain ⟨n, v⟩ := q
      simp only [setAll] at h
      split at h
      · cases h
      · rename_i mid hmid
        rw [ih mid h]
        exact set_cls inst n v mid hmid

/-- The metadata fields of a successful instance-namespace view are exactly
the declaring descriptor's metadata. -/
theorem nsGet_ok_fields (inst : PInstance) (m : String) (d : Descriptor)
    (hd : findDecl inst.cls m = Option.some d) (w : ParamView)
    (h : nsGet inst m = Except.ok w) :
    w.doc = d.doc ∧ w.units = d.units ∧ w.default = d.default := by
  simp only [nsGet, hd] at h
  split at h
  · cases h
  · cases h
    exact ⟨rfl, rfl, rfl⟩

/-- For a declared name, get always succeeds. -/
theorem get_declared (inst : PInstance) (n : String) (d : Descriptor)
    (hd : findDecl inst.cls n = Option.some d) :
    ∃ v, get inst n = Except.ok v := by
  simp only [get, hd]
  rcases lookupStore inst.store n with _ | v
  · exact ⟨d.default, rfl⟩
  · exact ⟨v, rfl⟩

/-- The executable bounds check agrees with the arithmetic reading: the
lower bound (strict when exclusive) and the upper bound (strict when
exclusive) each hold, an absent endpoint holding vacuously. -/
theorem boundsOk_iff (bd : Bounds) (q : ℚ) :
    boundsOk (Option.some bd) q = true ↔
      (∀ l, bd.lo = Option.some l →
        (if bd.loExcl = true then l < q else l ≤ q)) ∧
      (∀ u, bd.hi = Option.some u →
        (if bd.hiExcl = true then q < u else q ≤ u)) := by
  rcases hlo : bd.lo with _ | l <;> rcases hhi : bd.hi with _ | u <;>
    rcases hle : bd.loExcl with _ | _ <;> rcases hhe : bd.hiExcl with _ | _ <;>
      simp [boundsOk, lowerOk, upperOk, hlo, hhi, hle, hhe]

/-- Claim C1: for every valid set of keyword overrides, construction
validates each override through its descriptor and stores it, so get on each
overridden name returns exactly the validated override value, while every
declared name not mentioned in the overrides retains its descriptor's
default; in particular Square(side1=5, side2=4) yields get "side1" = 5 and
get "side2" = 4. -/
theorem construct_get_overrides (reg : Registry)
    (ovs : List (String × Value)) (inst : PInstance)
    (hnodup : (ovs.map Prod.fst).Nodup)
    (hc : construct reg ovs = Except.ok inst) :
    (∀ n v, (n, v) ∈ ovs → get inst n = Except.ok v) ∧
    (∀ n d, findDecl reg n = Option.some d → n ∉ ovs.map Prod.fst →
      get inst n = Except.ok d.default) ∧
    (construct Square sq1Overrides = Except.ok sq1 ∧
      get sq1 "side1" = Except.ok (Value.num 5) ∧
      get sq1 "side2" = Except.ok (Value.num 4)) := by
  obtain ⟨hcls, happ⟩ := construct_ok_parts reg ovs inst hc
  refine ⟨?_, ?_, rfl, rfl, rfl⟩
  · intro n v hmem
    obtain ⟨d, hd, hval⟩ :=
      applyOverrides_ok_all reg (seedDefaults reg) ovs inst.store happ
        (n, v) hmem
    have hsome : (lookupStore (seedDefaults reg) n).isSome := by
      rw [lookup_seedDefaults, hd]; rfl
    have hlook := applyOverrides_mem reg (seedDefaults reg) ovs inst.store
      n v hnodup hmem hsome happ
    simp only [get, hcls, hd, hlook]
  · intro n d hd hnot
    have hh := applyOverrides_notmem reg (seedDefaults reg) ovs inst.store
      n hnot happ
    rw [lookup_seedDefaults, hd, Option.map_some'] at hh
    simp only [get, hcls, hd, hh]

/-- Claim C1 witness: applied to Square(side1=5, side2=4). -/
theorem construct_get_overrides_witness :
    get sq1 "side1" = Except.ok (Value.num 5) :=
  (construct_get_overrides Square sq1Overrides sq1 (by decide) rfl).1
    "side1" (Value.num 5) (by simp [sq1Overrides])

/-- Claim C2: constructing with no overrides stores, for every declared name,
that descriptor's declared default. -/
theorem construct_no_overrides_defaults (reg : Registry) (inst : PInstance)
    (n : String) (d : Descriptor) (hc : construct reg [] = Except.ok inst)
    (hd : findDecl reg n = Option.some d) :
    get inst n = Except.ok d.default := by
  simp only [construct, applyOverrides] at hc
  cases hc
  simp only [get, lookup_seedDefaults, hd, Option.map_some']

/-- Claim C2 witness: Square() with no overrides has both sides at the
default 1. -/
theorem construct_no_overrides_defaults_witness :
    get ⟨Square, [("side1", Value.num 1), ("side2", Value.num 1)]⟩ "side1" =
      Except.ok (Value.num 1) :=
  construct_no_overrides_defaults Square
    ⟨Square, [("side1", Value.num 1), ("side2", Value.num 1)]⟩
    "side1" _ rfl rfl

/-- Claim C3: for a numeric descriptor, validate accepts a numeric value
exactly when the bounds check holds; the bounds check is the arithmetic
lo <= v <= hi reading, strict on exclusive endpoints, with an absent bound
unbounded on that side; a value outside the bounds fails with a
ValidationError naming the bounds constraint. -/
theorem validate_number_bounds (d : Descriptor) (q : ℚ)
    (hk : d.kind = PKind.number) :
    (validate d (Value.num q) = Except.ok (Value.num q) ↔
      boundsOk d.bounds q = true) ∧
    (boundsOk d.bounds q = false →
      validate d (Value.num q) = Except.error (Err.validation "bounds")) ∧
    (∀ bd, d.bounds = Option.some bd →
      (boundsOk d.bounds q = true ↔
        (∀ l, bd.lo = Option.some l →
          (if bd.loExcl = true then l < q else l ≤ q)) ∧
        (∀ u, bd.hi = Option.some u →
          (if bd.hiExcl = true then q < u else q ≤ u)))) ∧
    (d.bounds = Option.none → boundsOk d.bounds q = true) := by
  refine ⟨?_, ?_, ?_, ?_⟩
  · simp only [validate, hk]
    by_cases hb : boundsOk d.bounds q = true
    · simp [hb]
    · simp [hb]
  · intro hb
    simp only [validate, hk, hb]
    simp
  · intro bd hbd
    rw [hbd]
    exact boundsOk_iff bd q
  · intro hb
    rw [hb]
    rfl

/-- Claim C3 witness: a Number with bounds [0, 10] rejects 11 with a bounds
ValidationError and accepts 10. -/
theorem validate_number_bounds_witness :
    validate ⟨Option.none, PKind.number, Value.num 1, Option.none,
        Option.none, Option.some ⟨Option.some 0, Option.some 10, false,
        false⟩, false, false⟩ (Value.num 11) =
      Except.error (Err.validation "bounds") ∧
    validate ⟨Option.none, PKind.number, Value.num 1, Option.none,
        Option.none, Option.some ⟨Option.some 0, Option.some 10, false,
        false⟩, false, false⟩ (Value.num 10) =
      Except.ok (Value.num 10) :=
  ⟨(validate_number_bounds _ 11 rfl).2.1 (by decide),
   (validate_number_bounds _ 10 rfl).1.mpr (by decide)⟩

/-- Claim C4: construction is atomic — whenever some override fails
validation or uses a key with no matching descriptor, the whole construction
fails and no instance is produced; concretely, an unknown key yields
UnknownAttributeError and a wrong-typed side1 yields a ValidationError, with
no instance in either case. -/
theorem construct_atomic (reg : Registry) (ovs : List (String × Value))
    (n : String) (v : Value) (hmem : (n, v) ∈ ovs)
    (hbad : findDecl reg n = Option.none ∨
      ∃ d e, findDecl reg n = Option.some d ∧
        validate d v = Except.error e) :
    ((¬ ∃ inst, construct reg ovs = Except.ok inst) ∧
      ∃ e, construct reg ovs = Except.error e) ∧
    (construct Square [("side3", Value.num 2)] =
      Except.error (Err.unknownAttribute "side3") ∧
     construct Square [("side1", Value.str "x"), ("side2", Value.num 4)] =
      Except.error (Err.validation "type")) := by
  have hno : ¬ ∃ inst, construct reg ovs = Except.ok inst := by
    rintro ⟨inst, hc⟩
    obtain ⟨_, happ⟩ := construct_ok_parts reg ovs inst hc
    obtain ⟨d, hd, hval⟩ :=
      applyOverrides_ok_all reg (seedDefaults reg) ovs inst.store happ
        (n, v) hmem
    rcases hbad with hnone | ⟨d', e, hd', hv'⟩
    · rw [hnone] at hd; cases hd
    · rw [hd'] at hd
      cases hd
      rw [hval] at hv'
      cases hv'
  refine ⟨⟨hno, ?_⟩, rfl, rfl⟩
  rcases hc : construct reg ovs with e | inst
  · exact ⟨e, rfl⟩
  · exact absurd ⟨inst, hc⟩ hno

/-- Claim C4 witness: Square with the wrong-typed override side1="x" cannot
be constructed. -/
theorem construct_atomic_witness :
    ¬ ∃ inst, construct Square
      [("side1", Value.str "x"), ("side2", Value.num 4)] =
        Except.ok inst :=
  ((construct_atomic Square
      [("side1", Value.str "x"), ("side2", Value.num 4)]
      "side1" (Value.str "x") (by simp)
      (Or.inr ⟨_, Err.validation "type", rfl, rfl⟩)).1).1

/-- Claim C5: get, set and introspection-namespace access on an undeclared
name all fail with UnknownAttributeError, while introspection-namespace
access on a declared name never raises. -/
theorem access_unknown_vs_declared (inst : PInstance) (n : String) :
    (findDecl inst.cls n = Option.none →
      get inst n = Except.error (Err.unknownAttribute n) ∧
      (∀ v, set inst n v = Except.error (Err.unknownAttribute n)) ∧
      nsGet inst n = Except.error (Err.unknownAttribute n) ∧
      nsGetClass inst.cls n = Except.error (Err.unknownAttribute n)) ∧
    (∀ d, findDecl inst.cls n = Option.some d →
      (∃ w, nsGet inst n = Except.ok w) ∧
      (∃ w, nsGetClass inst.cls n = Except.ok w)) := by
  constructor
  · intro h
    refine ⟨?_, ?_, ?_, ?_⟩
    · simp only [get, h]
    · intro v; simp only [set, h]
    · simp only [nsGet, h]
    · simp only [nsGetClass, h]
  · intro d hd
    constructor
    · obtain ⟨v, hv⟩ := get_declared inst n d hd
      exact ⟨⟨d.doc, d.units, d.bounds, d.default, Option.some v⟩,
        by simp only [nsGet, hd, hv]⟩
    · exact ⟨⟨d.doc, d.units, d.bounds, d.default, Option.none⟩,
        by simp only [nsGetClass, hd]⟩

/-- Claim C5 witness: on sq1, the undeclared name side3 fails everywhere and
the declared name side1 is introspectable. -/
theorem access_unknown_vs_declared_witness :
    get sq1 "side3" = Except.error (Err.unknownAttribute "side3") ∧
    (∃ w, nsGet sq1 "side1" = Except.ok w) :=
  ⟨((access_unknown_vs_declared sq1 "side3").1 rfl).1,
   ((access_unknown_vs_declared sq1 "side1").2 _ rfl).1⟩

/-- Claim C6: on a constructed instance, re-setting the current value of a
declared name succeeds when the descriptor is not constant, and fails with
ConstantViolationError when it is constant (the value is already initialized
at construction), even though the value is unchanged. -/
theorem set_current_value (reg : Registry) (ovs : List (String × Value))
    (inst : PInstance) (n : String) (d : Descriptor) (v : Value)
    (hwf : ∀ p ∈ reg, validate p.2 p.2.default = Except.ok p.2.default)
    (hc : construct reg ovs = Except.ok inst)
    (hd : findDecl reg n = Option.some d)
    (hg : get inst n = Except.ok v) :
    (d.constant = false → ∃ inst2, set inst n v = Except.ok inst2) ∧
    (d.constant = true →
      set inst n v = Except.error (Err.constantViolation n)) := by
  obtain ⟨hcls, happ⟩ := construct_ok_parts reg ovs inst hc
  have hstwf := applyOverrides_wf reg (seedDefaults reg) ovs inst.store
    (seedDefaults_wf reg hwf) happ
  have hval : validate d v = Except.ok v := by
    simp only [get, hcls, hd] at hg
    rcases hl : lookupStore inst.store n with _ | w
    · rw [hl] at hg
      cases hg
      exact hwf (n, d) (findDecl_mem reg n d hd)
    · rw [hl] at hg
      cases hg
      exact hstwf n v hl d (hcls ▸ hd)
  constructor
  · intro hconst
    exact ⟨⟨inst.cls, setStore inst.store n v⟩,
      by simp only [set, hcls, hd, hconst, hval]; rfl⟩
  · intro hconst
    simp only [set, hcls, hd, hconst]
    rfl

/-- Claim C6 witness: a constant Number attribute, freshly constructed at its
default, rejects re-setting that same value with ConstantViolationError. -/
theorem set_current_value_witness :
    set ⟨[("c", ⟨Option.some "c", PKind.number, Value.num 1, Option.none,
        Option.none, Option.none, true, false⟩)], [("c", Value.num 1)]⟩
      "c" (Value.num 1) = Except.error (Err.constantViolation "c") :=
  (set_current_value
    [("c", ⟨Option.some "c", PKind.number, Value.num 1, Option.none,
      Option.none, Option.none, true, false⟩)] []
    ⟨[("c", ⟨Option.some "c", PKind.number, Value.num 1, Option.none,
      Option.none, Option.none, true, false⟩)], [("c", Value.num 1)]⟩
    "c" _ (Value.num 1)
    (by intro p hp; simp only [List.mem_singleton] at hp; subst hp; rfl)
    rfl rfl rfl).2 rfl

/-- Claim C7: the introspection namespace's doc, units and default fields
equal the values passed at declaration time and are unchanged by any chain
of subsequent set calls, which modify only per-instance values; concretely
sq1.param.side1 shows doc "side1" and units "m". -/
theorem metadata_unchanged_by_set (inst : PInstance)
    (ops : List (String × Value)) (inst2 : PInstance)
    (hs : setAll inst ops = Except.ok inst2) :
    inst2.cls = inst.cls ∧
    (∀ m d, findDecl inst.cls m = Option.some d →
      ∀ w, nsGet inst2 m = Except.ok w →
        w.doc = d.doc ∧ w.units = d.units ∧ w.default = d.default) ∧
    (nsGet sq1 "side1" = Except.ok ⟨Option.some "side1", Option.some "m",
        Option.none, Value.num 1, Option.some (Value.num 5)⟩ ∧
     nsGet sq1 "side2" = Except.ok ⟨Option.some "side2", Option.some "m",
        Option.none, Value.num 1, Option.some (Value.num 4)⟩) := by
  have hcls := setAll_cls inst ops inst2 hs
  refine ⟨hcls, ?_, rfl, rfl⟩
  intro m d hd w hw
  exact nsGet_ok_fields inst2 m d (hcls ▸ hd) w hw

/-- Claim C7 witness: after setting side1 to 2 on sq1, the registry — and
with it every declaration-time doc, units and default — is unchanged. -/
theorem metadata_unchanged_by_set_witness :
    (⟨Square, [("side1", Value.num 2), ("side2", Value.num 4)]⟩ :
      PInstance).cls = sq1.cls :=
  (metadata_unchanged_by_set sq1 [("side1", Value.num 2)]
    ⟨Square, [("side1", Value.num 2), ("side2", Value.num 4)]⟩ rfl).1

/-- Claim C8: attribute-style read and write on an instance behave
identically to get and set for every instance, name and candidate value —
same results, same errors, and no path that stores a value without running
the descriptor's validation. -/
theorem attr_access_equiv (inst : PInstance) (n : String) (v : Value) :
    attrRead inst n = get inst n ∧ attrWrite inst n v = set inst n v :=
  ⟨rfl, rfl⟩

/-- Claim C9: a descriptor can be constructed standalone, unattached to any
class: Number(doc="side1", default=1.) succeeds, its doc field is "side1",
and no class attachment has occurred (its name is still unbound). -/
theorem p1_standalone :
    ∃ d, p1 = Except.ok d ∧ d.doc = Option.some "side1" ∧
      d.name = Option.none :=
  ⟨⟨Option.none, PKind.number, Value.num 1, Option.some "side1",
    Option.none, Option.none, false, false⟩, rfl, rfl, rfl⟩

/-- Claim C10: a descriptor declared in a class body without an explicit
name has its name bound, at class-creation time, to the identifier it is
assigned to, and is addressable under exactly that identifier through the
introspection namespace; concretely, Square's side1 = Number(...) with no
name argument is reachable as sq1.param.side1. -/
theorem collect_binds_name (decls : List (String × Descriptor))
    (reg : Registry) (ident : String) (d : Descriptor)
    (hc : collect decls = Except.ok reg) (hmem : (ident, d) ∈ decls)
    (hname : d.name = Option.none) :
    (findDecl reg ident = Option.some (bindName ident d) ∧
      (bindName ident d).name = Option.some ident) ∧
    (collect squareBody = Except.ok Square ∧
      (∃ w, nsGetClass Square "side1" = Except.ok w) ∧
      (∃ w, nsGet sq1 "side1" = Except.ok w)) := by
  refine ⟨⟨?_, by simp [bindName, hname]⟩, rfl,
    ⟨⟨Option.some "side1", Option.some "m", Option.none, Value.num 1,
      Option.none⟩, rfl⟩,
    ⟨⟨Option.some "side1", Option.some "m", Option.none, Value.num 1,
      Option.some (Value.num 5)⟩, rfl⟩⟩
  induction decls generalizing reg with
  | nil => simp at hmem
  | cons q rest ih =>
      obtain ⟨i0, d0⟩ := q
      simp only [collect] at hc
      split at hc
      · cases hc
      · rename_i hdup
        split at hc
        · cases hc
        · rename_i reg0 hrest
          cases hc
          rcases List.mem_cons.mp hmem with hq | hr
          · have hi : ident = i0 := congrArg Prod.fst hq
            have hd : d = d0 := congrArg Prod.snd hq
            subst hi; subst hd
            simp [findDecl]
          · have hne : i0 ≠ ident := by
              intro he
              subst he
              exact hdup (List.elem_eq_true_of_mem
                (List.mem_map_of_mem Prod.fst hr))
            simp only [findDecl, if_neg hne]
            exact ih reg0 hrest hr

/-- Claim C10 witness: Square's side1 descriptor, declared with no name,
is registered under "side1" with its bound name "side1". -/
theorem collect_binds_name_witness :
    findDecl Square "side1" = Option.some (bindName "side1"
      (Number (Option.some "side1") (Value.num 1) (Option.some "m"))) :=
  ((collect_binds_name squareBody Square "side1"
    (Number (Option.some "side1") (Value.num 1) (Option.some "m"))
    rfl (List.mem_cons_self _ _) rfl).1).1

end ParamSpec
